import Mathlib

/-!
# Shallow embedding of the Codec Explorer core pipeline

This file embeds the core image-codec pipeline of the repository
(`src/core`): the `Image` buffer, the BGR ↔ YCrCb color transform
(`colorspace.cpp`), the 8×8 DCT (`transform.cpp`), the block and
full-image Haar wavelet transforms (`wavelet.cpp`), the `ImageCodec`
orchestrator (`ImageCodec.cpp`) and the fidelity analysis
(`CodecAnalysis.cpp`), and proves or refutes the specified properties.

Modeling conventions:
* C++ `double` samples are modeled as real numbers (`ℝ`); arithmetic is
  exact real arithmetic.  The source's decimal constants `PI` and
  `INV_SQRT2` (20-digit approximations of π and 1/√2, the latter
  commented `// 1.0 / sqrt(2)` in the source) are modeled by the exact
  reals `Real.pi` and `(Real.sqrt 2)⁻¹`.
* `std::round` (round half away from zero) is modeled by `stdRound`.
* An `Image` is a width/height/channel triple with a total sample
  function; indices past `width*height*channels` are 0, mirroring the
  zero-initialized `std::vector<double>` storage.
* Imperative per-block / per-pixel loops that write disjoint regions of
  a fresh output buffer are rendered as per-index definitions.
* The mutable bit-count accumulator `m_lastBitEstimate` is not modeled:
  it does not influence any returned image or metric.
-/

namespace Codec

/-- The pixel buffer of `Image.h`: a rectangular, multi-channel array of
real-valued samples, row-major, interleaved by channel
(index = (row·width + col)·channels + channel).  The backing vector is
zero-filled at construction, so samples are modeled as a total function
that is 0 beyond `size`. -/
structure Image where
  width : ℕ
  height : ℕ
  channels : ℕ
  data : ℕ → ℝ

/-- `Image::size()`: the length of the sample vector. -/
def Image.size (img : Image) : ℕ := img.width * img.height * img.channels

/-- Shape equality used by the fidelity computations' mismatch guards. -/
def sameShape (a b : Image) : Prop :=
  a.width = b.width ∧ a.height = b.height ∧ a.channels = b.channels

instance (a b : Image) : Decidable (sameShape a b) := by
  unfold sameShape; infer_instance

/-- The `[](double val)` clamp lambda of `ycrcbToBgr`:
clamp to [0, 255]. -/
noncomputable def clamp255 (v : ℝ) : ℝ := max 0 (min 255 v)

/-- `Y = 0.299 R + 0.587 G + 0.114 B` (forward transform, `colorspace.cpp`). -/
noncomputable def yOf (B G R : ℝ) : ℝ := 0.299 * R + 0.587 * G + 0.114 * B

/-- `Cr = (R − Y)·0.713 + 128` (forward transform, `colorspace.cpp`). -/
noncomputable def crOf (B G R : ℝ) : ℝ := (R - yOf B G R) * 0.713 + 128

/-- `Cb = (B − Y)·0.564 + 128` (forward transform, `colorspace.cpp`). -/
noncomputable def cbOf (B G R : ℝ) : ℝ := (B - yOf B G R) * 0.564 + 128

/-- `R = Y + 1.402·(Cr − 128)` (inverse transform, before clamping). -/
noncomputable def rOf (Y Cr Cb : ℝ) : ℝ := Y + 1.402 * (Cr - 128)

/-- `G = Y − 0.344136·(Cb − 128) − 0.714136·(Cr − 128)` (inverse, before clamping). -/
noncomputable def gOf (Y Cr Cb : ℝ) : ℝ :=
  Y - 0.344136 * (Cb - 128) - 0.714136 * (Cr - 128)

/-- `B = Y + 1.772·(Cb − 128)` (inverse transform, before clamping). -/
noncomputable def bOf (Y Cr Cb : ℝ) : ℝ := Y + 1.772 * (Cb - 128)

/-- `bgrToYCrCb` (`colorspace.cpp`): per pixel, read (B,G,R) from three
consecutive interleaved samples and write (Y,Cr,Cb).  Output is a fresh
`width × height × 3` image. -/
noncomputable def bgrToYCrCb (input : Image) : Image :=
  { width := input.width, height := input.height, channels := 3,
    data := fun idx =>
      if idx < input.width * input.height * 3 then
        let p := idx / 3
        let B := input.data (3 * p)
        let G := input.data (3 * p + 1)
        let R := input.data (3 * p + 2)
        if idx % 3 = 0 then yOf B G R
        else if idx % 3 = 1 then crOf B G R
        else cbOf B G R
      else 0 }

/-- `ycrcbToBgr` (`colorspace.cpp`): per pixel, read (Y,Cr,Cb) and write
(clamped B, clamped G, clamped R) in interleaved BGR order. -/
noncomputable def ycrcbToBgr (input : Image) : Image :=
  { width := input.width, height := input.height, channels := 3,
    data := fun idx =>
      if idx < input.width * input.height * 3 then
        let p := idx / 3
        let Y := input.data (3 * p)
        let Cr := input.data (3 * p + 1)
        let Cb := input.data (3 * p + 2)
        if idx % 3 = 0 then clamp255 (bOf Y Cr Cb)
        else if idx % 3 = 1 then clamp255 (gOf Y Cr Cb)
        else clamp255 (rOf Y Cr Cb)
      else 0 }

/-- Clamping to [0,255] never moves a value further from any target that
already lies in [0,255]. -/
lemma clamp255_close {v b : ℝ} (h0 : 0 ≤ b) (h255 : b ≤ 255) :
    |clamp255 v - b| ≤ |v - b| := by
  unfold clamp255
  rcases le_total v 0 with hv | hv
  · rw [min_eq_right (by linarith), max_eq_left hv]
    rw [abs_of_nonpos (by linarith), abs_of_nonpos (by linarith)]
    linarith
  · rcases le_total v 255 with hv2 | hv2
    · rw [min_eq_right hv2, max_eq_right hv]
    · rw [min_eq_left hv2, max_eq_right (by norm_num : (0:ℝ) ≤ 255)]
      rw [abs_of_nonneg (by linarith), abs_of_nonneg (by linarith)]
      linarith

/-- Per-pixel round-trip error bound for the B channel: the inverse
coefficient 1.772 is not exactly the reciprocal of the forward 0.564
scale, so the round trip perturbs B by at most (1 − 1.772·0.564)·255. -/
lemma roundtrip_b_close {B G R : ℝ} (hB0 : 0 ≤ B) (hB1 : B ≤ 255)
    (hG0 : 0 ≤ G) (hG1 : G ≤ 255) (hR0 : 0 ≤ R) (hR1 : R ≤ 255) :
    |clamp255 (bOf (yOf B G R) (crOf B G R) (cbOf B G R)) - B| ≤ 0.2 := by
  refine le_trans (clamp255_close hB0 hB1) ?_
  simp only [bOf, yOf, crOf, cbOf]
  rw [abs_le]
  constructor <;> linarith

/-- Per-pixel round-trip error bound for the G channel. -/
lemma roundtrip_g_close {B G R : ℝ} (hB0 : 0 ≤ B) (hB1 : B ≤ 255)
    (hG0 : 0 ≤ G) (hG1 : G ≤ 255) (hR0 : 0 ≤ R) (hR1 : R ≤ 255) :
    |clamp255 (gOf (yOf B G R) (crOf B G R) (cbOf B G R)) - G| ≤ 0.2 := by
  refine le_trans (clamp255_close hG0 hG1) ?_
  simp only [gOf, yOf, crOf, cbOf]
  rw [abs_le]
  constructor <;> linarith

/-- Per-pixel round-trip error bound for the R channel. -/
lemma roundtrip_r_close {B G R : ℝ} (hB0 : 0 ≤ B) (hB1 : B ≤ 255)
    (hG0 : 0 ≤ G) (hG1 : G ≤ 255) (hR0 : 0 ≤ R) (hR1 : R ≤ 255) :
    |clamp255 (rOf (yOf B G R) (crOf B G R) (cbOf B G R)) - R| ≤ 0.2 := by
  refine le_trans (clamp255_close hR0 hR1) ?_
  simp only [rOf, yOf, crOf, cbOf]
  rw [abs_le]
  constructor <;> linarith

/-- A 1×1 tri-channel test image with pixel (B,G,R) = (0,0,255). -/
noncomputable def c3Img : Image :=
  { width := 1, height := 1, channels := 3,
    data := fun idx => if idx = 2 then 255 else 0 }

lemma bgrToYCrCb_y (img : Image) (p : ℕ) (hp : p < img.width * img.height) :
    (bgrToYCrCb img).data (3 * p) =
      yOf (img.data (3 * p)) (img.data (3 * p + 1)) (img.data (3 * p + 2)) := by
  have h1 : 3 * p < img.width * img.height * 3 := by omega
  have h3 : 3 * p % 3 = 0 := by omega
  simp only [bgrToYCrCb]
  rw [if_pos h1]
  simp only [h3, Nat.mul_div_cancel_left p (by norm_num : 0 < 3)]
  norm_num

lemma bgrToYCrCb_cr (img : Image) (p : ℕ) (hp : p < img.width * img.height) :
    (bgrToYCrCb img).data (3 * p + 1) =
      crOf (img.data (3 * p)) (img.data (3 * p + 1)) (img.data (3 * p + 2)) := by
  have h1 : 3 * p + 1 < img.width * img.height * 3 := by omega
  have h2 : (3 * p + 1) / 3 = p := by omega
  have h3 : (3 * p + 1) % 3 = 1 := by omega
  simp only [bgrToYCrCb]
  rw [if_pos h1]
  simp only [h2, h3]
  norm_num

lemma bgrToYCrCb_cb (img : Image) (p : ℕ) (hp : p < img.width * img.height) :
    (bgrToYCrCb img).data (3 * p + 2) =
      cbOf (img.data (3 * p)) (img.data (3 * p + 1)) (img.data (3 * p + 2)) := by
  have h1 : 3 * p + 2 < img.width * img.height * 3 := by omega
  have h2 : (3 * p + 2) / 3 = p := by omega
  have h3 : (3 * p + 2) % 3 = 2 := by omega
  simp only [bgrToYCrCb]
  rw [if_pos h1]
  simp only [h2, h3]
  norm_num

lemma ycrcbToBgr_b (img : Image) (p : ℕ) (hp : p < img.width * img.height) :
    (ycrcbToBgr img).data (3 * p) =
      clamp255 (bOf (img.data (3 * p)) (img.data (3 * p + 1)) (img.data (3 * p + 2))) := by
  have h1 : 3 * p < img.width * img.height * 3 := by omega
  have h3 : 3 * p % 3 = 0 := by omega
  simp only [ycrcbToBgr]
  rw [if_pos h1]
  simp only [h3, Nat.mul_div_cancel_left p (by norm_num : 0 < 3)]
  norm_num

lemma ycrcbToBgr_g (img : Image) (p : ℕ) (hp : p < img.width * img.height) :
    (ycrcbToBgr img).data (3 * p + 1) =
      clamp255 (gOf (img.data (3 * p)) (img.data (3 * p + 1)) (img.data (3 * p + 2))) := by
  have h1 : 3 * p + 1 < img.width * img.height * 3 := by omega
  have h2 : (3 * p + 1) / 3 = p := by omega
  have h3 : (3 * p + 1) % 3 = 1 := by omega
  simp only [ycrcbToBgr]
  rw [if_pos h1]
  simp only [h2, h3]
  norm_num

lemma ycrcbToBgr_r (img : Image) (p : ℕ) (hp : p < img.width * img.height) :
    (ycrcbToBgr img).data (3 * p + 2) =
      clamp255 (rOf (img.data (3 * p)) (img.data (3 * p + 1)) (img.data (3 * p + 2))) := by
  have h1 : 3 * p + 2 < img.width * img.height * 3 := by omega
  have h2 : (3 * p + 2) / 3 = p := by omega
  have h3 : (3 * p + 2) % 3 = 2 := by omega
  simp only [ycrcbToBgr]
  rw [if_pos h1]
  simp only [h2, h3]
  norm_num

/-- C3 counterexample: on the 1×1 image with (B,G,R) = (0,0,255) the
color round trip is not the identity — the reconstructed R sample is
254.93314563, not 255, even though no clamping occurs (the forward and
inverse constants are not exact inverses: 1.402·0.713 = 0.999626 ≠ 1). -/
theorem c3_color_roundtrip_not_exact :
    (ycrcbToBgr (bgrToYCrCb c3Img)).data 2 ≠ c3Img.data 2 := by
  have hp : (0 : ℕ) < c3Img.width * c3Img.height := by norm_num [c3Img]
  have hY := bgrToYCrCb_y c3Img 0 hp
  have hCr := bgrToYCrCb_cr c3Img 0 hp
  have hCb := bgrToYCrCb_cb c3Img 0 hp
  have hB : c3Img.data 0 = 0 := by norm_num [c3Img]
  have hG : c3Img.data 1 = 0 := by norm_num [c3Img]
  have hR : c3Img.data 2 = 255 := by norm_num [c3Img]
  have hp2 : (0 : ℕ) < (bgrToYCrCb c3Img).width * (bgrToYCrCb c3Img).height := hp
  have hout := ycrcbToBgr_r (bgrToYCrCb c3Img) 0 hp2
  norm_num at hY hCr hCb hout
  rw [hB, hG, hR] at hY hCr hCb
  rw [hout, hY, hCr, hCb, hR]
  norm_num [yOf, crOf, cbOf, rOf, clamp255, min_def, max_def]

/-- C3 amended: the color round trip reproduces every sample of a
tri-channel image with samples in [0,255] to within 0.2 (it is
approximately, not exactly, invertible: the inverse coefficients are
rounded reciprocals of the forward ones). -/
theorem c3_color_roundtrip_within_tol (img : Image)
    (hch : img.channels = 3)
    (hrange : ∀ i, i < img.width * img.height * 3 →
      0 ≤ img.data i ∧ img.data i ≤ 255)
    (i : ℕ) (hi : i < img.width * img.height * 3) :
    |(ycrcbToBgr (bgrToYCrCb img)).data i - img.data i| ≤ 0.2 := by
  set p := i / 3 with hpdef
  have hp : p < img.width * img.height := by omega
  have hY := bgrToYCrCb_y img p hp
  have hCr := bgrToYCrCb_cr img p hp
  have hCb := bgrToYCrCb_cb img p hp
  obtain ⟨hB0, hB1⟩ := hrange (3 * p) (by omega)
  obtain ⟨hG0, hG1⟩ := hrange (3 * p + 1) (by omega)
  obtain ⟨hR0, hR1⟩ := hrange (3 * p + 2) (by omega)
  have hp2 : p < (bgrToYCrCb img).width * (bgrToYCrCb img).height := hp
  have hmod : i % 3 = 0 ∨ i % 3 = 1 ∨ i % 3 = 2 := by omega
  rcases hmod with hm | hm | hm
  · have hieq : i = 3 * p := by omega
    rw [hieq, ycrcbToBgr_b (bgrToYCrCb img) p hp2, hY, hCr, hCb]
    exact roundtrip_b_close hB0 hB1 hG0 hG1 hR0 hR1
  · have hieq : i = 3 * p + 1 := by omega
    rw [hieq, ycrcbToBgr_g (bgrToYCrCb img) p hp2, hY, hCr, hCb]
    exact roundtrip_g_close hB0 hB1 hG0 hG1 hR0 hR1
  · have hieq : i = 3 * p + 2 := by omega
    rw [hieq, ycrcbToBgr_r (bgrToYCrCb img) p hp2, hY, hCr, hCb]
    exact roundtrip_r_close hB0 hB1 hG0 hG1 hR0 hR1

/-- Witness for `c3_color_roundtrip_within_tol` at the all-zero 1×1
tri-channel image and sample index 0. -/
theorem c3_color_roundtrip_within_tol_witness :
    |(ycrcbToBgr (bgrToYCrCb (Image.mk 1 1 3 (fun _ => 0)))).data 0 -
      (Image.mk 1 1 3 (fun _ => 0)).data 0| ≤ 0.2 :=
  c3_color_roundtrip_within_tol (Image.mk 1 1 3 (fun _ => 0)) rfl
    (fun i _ => by norm_num) 0 (by norm_num)

/-- The normalization factor `C(u)` of `transform.cpp`:
`(u == 0) ? 1/sqrt(2) : 1`. -/
noncomputable def Ccoef (u : ℕ) : ℝ := if u = 0 then 1 / Real.sqrt 2 else 1

/-- The cosine basis factor `cos(((2x+1)·u·π)/16)` of `transform.cpp`
(the source's 20-digit `PI` literal is modeled by `Real.pi`). -/
noncomputable def dctCos (x u : ℕ) : ℝ :=
  Real.cos ((2 * (x : ℝ) + 1) * (u : ℝ) * Real.pi / 16)

/-- `dct8x8` (`transform.cpp`): the 8×8 forward DCT-II,
`F(u,v) = ¼·C(u)·C(v)·Σ_{x,y} f(x,y)·cos((2x+1)uπ/16)·cos((2y+1)vπ/16)`. -/
noncomputable def dct8x8 (src : Fin 8 → Fin 8 → ℝ) : Fin 8 → Fin 8 → ℝ :=
  fun u v =>
    0.25 * Ccoef u * Ccoef v *
      ∑ x : Fin 8, ∑ y : Fin 8, src x y * dctCos x u * dctCos y v

/-- `idct8x8` (`transform.cpp`): the symmetric inverse summation over
(u,v) with the same normalization. -/
noncomputable def idct8x8 (src : Fin 8 → Fin 8 → ℝ) : Fin 8 → Fin 8 → ℝ :=
  fun x y =>
    0.25 *
      ∑ u : Fin 8, ∑ v : Fin 8,
        Ccoef u * Ccoef v * src u v * dctCos x u * dctCos y v

lemma sum_cos_telescope (θ : ℝ) :
    2 * Real.sin θ * ∑ x ∈ Finset.range 8, Real.cos ((2 * (x : ℝ) + 1) * θ) =
      Real.sin (16 * θ) := by
  rw [Finset.mul_sum]
  have key : ∀ x : ℕ, 2 * Real.sin θ * Real.cos ((2 * (x : ℝ) + 1) * θ) =
      Real.sin ((2 * ((x : ℝ) + 1)) * θ) - Real.sin ((2 * (x : ℝ)) * θ) := by
    intro x
    have h1 : (2 * ((x : ℝ) + 1)) * θ = (2 * (x : ℝ) + 1) * θ + θ := by ring
    have h2 : (2 * (x : ℝ)) * θ = (2 * (x : ℝ) + 1) * θ - θ := by ring
    rw [h1, h2, Real.sin_add, Real.sin_sub]
    ring
  have tel := Finset.sum_range_sub (fun n => Real.sin ((2 * (n : ℝ)) * θ)) 8
  push_cast at tel
  calc ∑ x ∈ Finset.range 8, 2 * Real.sin θ * Real.cos ((2 * (x : ℝ) + 1) * θ)
      = ∑ x ∈ Finset.range 8,
          (Real.sin (2 * ((x : ℝ) + 1) * θ) - Real.sin (2 * (x : ℝ) * θ)) := by
        exact Finset.sum_congr rfl fun x _ => key x
    _ = Real.sin (2 * (8 : ℝ) * θ) - Real.sin (2 * (0 : ℝ) * θ) := tel
    _ = Real.sin (16 * θ) := by norm_num

lemma sum_dctCos_ne_zero {u : ℕ} (h1 : 1 ≤ u) (h7 : u ≤ 7) :
    ∑ x ∈ Finset.range 8, dctCos x u = 0 := by
  have hpi := Real.pi_pos
  set θ : ℝ := (u : ℝ) * Real.pi / 16 with hθ
  have hang : ∀ x : ℕ, dctCos x u = Real.cos ((2 * (x : ℝ) + 1) * θ) := by
    intro x
    rw [dctCos, hθ]
    ring_nf
  have hu1 : (1 : ℝ) ≤ (u : ℝ) := by exact_mod_cast h1
  have hu7 : (u : ℝ) ≤ 7 := by exact_mod_cast h7
  have hθpos : 0 < θ := by rw [hθ]; positivity
  have hθlt : θ < Real.pi := by
    rw [hθ]
    nlinarith
  have hsin : 0 < Real.sin θ := Real.sin_pos_of_pos_of_lt_pi hθpos hθlt
  have h16 : Real.sin (16 * θ) = 0 := by
    have h16e : 16 * θ = (u : ℝ) * Real.pi := by rw [hθ]; ring
    rw [h16e]
    exact Real.sin_nat_mul_pi u
  have htel := sum_cos_telescope θ
  rw [h16] at htel
  have h2s : 2 * Real.sin θ ≠ 0 := by positivity
  have := mul_eq_zero.mp htel
  rcases this with h | h
  · exact absurd h h2s
  · rw [Finset.sum_congr rfl fun x _ => hang x]
    exact h

lemma sum_dctCos_zero : ∑ x ∈ Finset.range 8, dctCos x 0 = 8 := by
  have : ∀ x : ℕ, dctCos x 0 = 1 := by
    intro x
    rw [dctCos]
    norm_num
  rw [Finset.sum_congr rfl fun x _ => this x]
  norm_num

lemma dct8x8_const (A : ℝ) (u v : Fin 8) :
    dct8x8 (fun _ _ => A) u v =
      0.25 * Ccoef u * Ccoef v *
        (A * (∑ x ∈ Finset.range 8, dctCos x u) *
          (∑ y ∈ Finset.range 8, dctCos y v)) := by
  unfold dct8x8
  congr 1
  rw [← Fin.sum_univ_eq_sum_range (fun i => dctCos i u) 8,
      ← Fin.sum_univ_eq_sum_range (fun i => dctCos i v) 8]
  rw [mul_assoc, Finset.sum_mul_sum, Finset.mul_sum]
  refine Finset.sum_congr rfl fun x _ => ?_
  rw [Finset.mul_sum]
  refine Finset.sum_congr rfl fun y _ => ?_
  ring

/-- C9: DCT DC isolation — a constant 8×8 block of value A transforms to
DC coefficient `(0,0) = 8·A` with every AC coefficient exactly zero. -/
theorem c9_dct_dc_isolation (A : ℝ) :
    dct8x8 (fun _ _ => A) 0 0 = 8 * A ∧
      ∀ u v : Fin 8, ¬(u = 0 ∧ v = 0) → dct8x8 (fun _ _ => A) u v = 0 := by
  have hs2 : Real.sqrt 2 * Real.sqrt 2 = 2 :=
    Real.mul_self_sqrt (by norm_num)
  have hs2ne : Real.sqrt 2 ≠ 0 := by
    intro h
    rw [h] at hs2
    norm_num at hs2
  have hhalf : (1 / Real.sqrt 2) * (1 / Real.sqrt 2) = 1 / 2 := by
    rw [div_mul_div_comm, one_mul, hs2]
  have hC0 : Ccoef 0 = 1 / Real.sqrt 2 := if_pos rfl
  have key : (0.25 : ℝ) * Ccoef 0 * Ccoef 0 = 1 / 8 := by
    rw [hC0, mul_assoc, hhalf]
    norm_num
  constructor
  · rw [dct8x8_const]
    simp only [Fin.val_zero]
    rw [sum_dctCos_zero, key]
    ring
  · intro u v huv
    rcases Decidable.em (u = 0) with hu | hu
    · have hv : v ≠ 0 := fun h => huv ⟨hu, h⟩
      have hv1 : 1 ≤ (v : ℕ) := by
        rcases Nat.eq_zero_or_pos (v : ℕ) with h | h
        · exact absurd (Fin.ext h) hv
        · exact h
      have hv7 : (v : ℕ) ≤ 7 := by omega
      rw [dct8x8_const, sum_dctCos_ne_zero hv1 hv7]
      ring
    · have hu1 : 1 ≤ (u : ℕ) := by
        rcases Nat.eq_zero_or_pos (u : ℕ) with h | h
        · exact absurd (Fin.ext h) hu
        · exact h
      have hu7 : (u : ℕ) ≤ 7 := by omega
      rw [dct8x8_const, sum_dctCos_ne_zero hu1 hu7]
      ring

/-- Witness for `c9_dct_dc_isolation`: at A = 1, the AC coefficient
(0,1) of the constant block is zero. -/
theorem c9_dct_dc_isolation_witness :
    ¬((0 : Fin 8) = 0 ∧ (1 : Fin 8) = 0) ∧
      dct8x8 (fun _ _ => (1 : ℝ)) 0 1 = 0 :=
  ⟨by decide, (c9_dct_dc_isolation 1).2 0 1 (by decide)⟩

/-- The source's `INV_SQRT2 = 0.70710678118654752440 // 1.0 / sqrt(2)`
(`wavelet.cpp`), modeled by the exact real `1/√2`. -/
noncomputable def INV_SQRT2 : ℝ := (Real.sqrt 2)⁻¹

/-- `haar1d_fwd` / `haar1d_fwd_n` (`wavelet.cpp`): in-place forward 1-D
orthonormal Haar on `n` elements — averages at `[0, n/2)`, differences at
`[n/2, n)`, indices past `n` untouched. -/
noncomputable def haar1dFwd (f : ℕ → ℝ) (n : ℕ) : ℕ → ℝ := fun k =>
  if k < n / 2 then (f (2 * k) + f (2 * k + 1)) * INV_SQRT2
  else if k < n then
    (f (2 * (k - n / 2)) - f (2 * (k - n / 2) + 1)) * INV_SQRT2
  else f k

/-- `haar1d_inv` / `haar1d_inv_n` (`wavelet.cpp`): inverse 1-D Haar,
`x[2k] = (avg[k]+det[k])/√2`, `x[2k+1] = (avg[k]−det[k])/√2`. -/
noncomputable def haar1dInv (f : ℕ → ℝ) (n : ℕ) : ℕ → ℝ := fun k =>
  if k < n then
    if k % 2 = 0 then (f (k / 2) + f (k / 2 + n / 2)) * INV_SQRT2
    else (f (k / 2) - f (k / 2 + n / 2)) * INV_SQRT2
  else f k

/-- Forward Haar applied to the first `wt` entries of each of the first
`ht` rows (the row pass of `dwtImage` / `dwt8x8`). -/
noncomputable def rowFwd (g : ℕ → ℕ → ℝ) (wt ht : ℕ) : ℕ → ℕ → ℝ :=
  fun y x => if y < ht then haar1dFwd (g y) wt x else g y x

/-- Forward Haar applied to the first `ht` entries of each of the first
`wt` columns (the column pass of `dwtImage` / `dwt8x8`). -/
noncomputable def colFwd (g : ℕ → ℕ → ℝ) (wt ht : ℕ) : ℕ → ℕ → ℝ :=
  fun y x => if x < wt then haar1dFwd (fun i => g i x) ht y else g y x

/-- Inverse row pass (mirror of `rowFwd`). -/
noncomputable def rowInv (g : ℕ → ℕ → ℝ) (wt ht : ℕ) : ℕ → ℕ → ℝ :=
  fun y x => if y < ht then haar1dInv (g y) wt x else g y x

/-- Inverse column pass (mirror of `colFwd`). -/
noncomputable def colInv (g : ℕ → ℕ → ℝ) (wt ht : ℕ) : ℕ → ℕ → ℝ :=
  fun y x => if x < wt then haar1dInv (fun i => g i x) ht y else g y x

/-- `dwtImage` (`wavelet.cpp`): at each level the current quadrant's
dimensions are rounded down to even (`w & ~1 = 2·(w/2)`), rows then
columns are Haar-transformed, and the next level recurses into the
half-sized quadrant; the loop breaks when a dimension drops below 2. -/
noncomputable def dwtImage : (ℕ → ℕ → ℝ) → ℕ → ℕ → ℕ → (ℕ → ℕ → ℝ)
  | g, _, _, 0 => g
  | g, w, h, (L + 1) =>
    if w < 2 ∨ h < 2 then g
    else
      dwtImage (colFwd (rowFwd g (2 * (w / 2)) (2 * (h / 2)))
          (2 * (w / 2)) (2 * (h / 2))) (w / 2) (h / 2) L

/-- `idwtImage` (`wavelet.cpp`): replays the forward pass's per-level even
dimensions, then undoes levels coarsest-to-finest, columns-then-rows,
skipping (`continue`) any level whose transformed region degenerated. -/
noncomputable def idwtImage : (ℕ → ℕ → ℝ) → ℕ → ℕ → ℕ → (ℕ → ℕ → ℝ)
  | g, _, _, 0 => g
  | g, w, h, (L + 1) =>
    if 2 * (w / 2) < 2 ∨ 2 * (h / 2) < 2 then idwtImage g (w / 2) (h / 2) L
    else
      rowInv (colInv (idwtImage g (w / 2) (h / 2) L)
          (2 * (w / 2)) (2 * (h / 2))) (2 * (w / 2)) (2 * (h / 2))

/-- The `while (w >= 2 && h >= 2)` halving loop of `calcDwtLevels`. -/
def calcDwtLevelsAux (w h : ℕ) : ℕ :=
  if 2 ≤ w ∧ 2 ≤ h then calcDwtLevelsAux (w / 2) (h / 2) + 1 else 0
termination_by w
decreasing_by exact Nat.div_lt_self (by omega) (by omega)

/-- `calcDwtLevels` (`wavelet.cpp`): halvings while both dimensions stay
≥ 2, capped at 6. -/
def calcDwtLevels (w h : ℕ) : ℕ := min (calcDwtLevelsAux w h) 6

/-- `dwt8x8` (`wavelet.cpp`): 3-level Haar on an 8×8 block — the
`size = 8, 4, 2` loop, rows then columns at each size. -/
noncomputable def dwt8x8 (src : ℕ → ℕ → ℝ) : ℕ → ℕ → ℝ :=
  colFwd (rowFwd (colFwd (rowFwd (colFwd (rowFwd src 8 8) 8 8) 4 4) 4 4) 2 2) 2 2

/-- `idwt8x8` (`wavelet.cpp`): mirror of `dwt8x8` — the
`size = 2, 4, 8` loop, columns then rows at each size. -/
noncomputable def idwt8x8 (src : ℕ → ℕ → ℝ) : ℕ → ℕ → ℝ :=
  rowInv (colInv (rowInv (colInv (rowInv (colInv src 2 2) 2 2) 4 4) 4 4) 8 8) 8 8

lemma inv_sqrt2_sq : INV_SQRT2 * INV_SQRT2 = 1 / 2 := by
  rw [INV_SQRT2, ← mul_inv, Real.mul_self_sqrt (by norm_num : (0:ℝ) ≤ 2)]
  norm_num

/-- One inverse 1-D Haar pass exactly undoes one forward pass (for even
`n`, on every index). -/
lemma haar1d_inv_fwd (f : ℕ → ℝ) (n : ℕ) (hn : n % 2 = 0) (k : ℕ) :
    haar1dInv (haar1dFwd f n) n k = f k := by
  have hc := inv_sqrt2_sq
  by_cases hk : k < n
  · unfold haar1dInv
    rw [if_pos hk]
    by_cases hk2 : k % 2 = 0
    · rw [if_pos hk2]
      have h1 : k / 2 < n / 2 := by omega
      have h2 : ¬(k / 2 + n / 2 < n / 2) := by omega
      have h3 : k / 2 + n / 2 < n := by omega
      have h4 : 2 * (k / 2) = k := by omega
      have h5 : k / 2 + n / 2 - n / 2 = k / 2 := by omega
      unfold haar1dFwd
      rw [if_pos h1, if_neg h2, if_pos h3, h5, h4]
      linear_combination (2 * f k) * hc
    · rw [if_neg hk2]
      have h1 : k / 2 < n / 2 := by omega
      have h2 : ¬(k / 2 + n / 2 < n / 2) := by omega
      have h3 : k / 2 + n / 2 < n := by omega
      have h4 : 2 * (k / 2) = k - 1 := by omega
      have h5 : k / 2 + n / 2 - n / 2 = k / 2 := by omega
      have h6 : k - 1 + 1 = k := by omega
      unfold haar1dFwd
      rw [if_pos h1, if_neg h2, if_pos h3, h5, h4, h6]
      linear_combination (2 * f k) * hc
  · have h1 : ¬(k < n / 2) := by omega
    simp only [haar1dInv, haar1dFwd, if_neg hk, if_neg h1]

/-- The inverse row pass undoes the forward row pass (even `wt`). -/
lemma rowInv_rowFwd (g : ℕ → ℕ → ℝ) (wt ht : ℕ) (hw : wt % 2 = 0) :
    rowInv (rowFwd g wt ht) wt ht = g := by
  funext y x
  unfold rowInv
  by_cases hy : y < ht
  · rw [if_pos hy]
    have hfy : rowFwd g wt ht y = haar1dFwd (g y) wt := by
      funext z
      exact if_pos hy
    rw [hfy, haar1d_inv_fwd (g y) wt hw x]
  · rw [if_neg hy]
    unfold rowFwd
    rw [if_neg hy]

/-- The inverse column pass undoes the forward column pass (even `ht`). -/
lemma colInv_colFwd (g : ℕ → ℕ → ℝ) (wt ht : ℕ) (hh : ht % 2 = 0) :
    colInv (colFwd g wt ht) wt ht = g := by
  funext y x
  unfold colInv
  by_cases hx : x < wt
  · rw [if_pos hx]
    have hcol : (fun i => colFwd g wt ht i x) = haar1dFwd (fun i => g i x) ht := by
      funext i
      exact if_pos hx
    rw [hcol, haar1d_inv_fwd (fun i => g i x) ht hh y]
  · rw [if_neg hx]
    unfold colFwd
    rw [if_neg hx]

/-- When a dimension is already below 2 every inverse level is skipped. -/
lemma idwtImage_small (L : ℕ) :
    ∀ (g : ℕ → ℕ → ℝ) (w h : ℕ), w < 2 ∨ h < 2 → idwtImage g w h L = g := by
  induction L with
  | zero => intro g w h _; rfl
  | succ L ih =>
    intro g w h hwh
    have hguard : 2 * (w / 2) < 2 ∨ 2 * (h / 2) < 2 := by omega
    show idwtImage g w h (L + 1) = g
    unfold idwtImage
    rw [if_pos hguard]
    exact ih g (w / 2) (h / 2) (by omega)

/-- Full-image Haar round trip: `idwtImage ∘ dwtImage` is the identity
for every buffer, every dimension pair and every level count. -/
lemma dwtImage_roundtrip (L : ℕ) :
    ∀ (g : ℕ → ℕ → ℝ) (w h : ℕ),
      idwtImage (dwtImage g w h L) w h L = g := by
  induction L with
  | zero => intro g w h; rfl
  | succ L ih =>
    intro g w h
    by_cases hwh : w < 2 ∨ h < 2
    · have hfwd : dwtImage g w h (L + 1) = g := by
        unfold dwtImage
        rw [if_pos hwh]
      rw [hfwd]
      exact idwtImage_small (L + 1) g w h hwh
    · have hw2 : 2 ≤ w := by omega
      have hh2 : 2 ≤ h := by omega
      have hwt : 2 ≤ 2 * (w / 2) := by omega
      have hht : 2 ≤ 2 * (h / 2) := by omega
      have hfwd : dwtImage g w h (L + 1) =
          dwtImage (colFwd (rowFwd g (2 * (w / 2)) (2 * (h / 2)))
            (2 * (w / 2)) (2 * (h / 2))) (w / 2) (h / 2) L := by
        conv_lhs => unfold dwtImage
        rw [if_neg (by omega)]
      have hguard : ¬(2 * (w / 2) < 2 ∨ 2 * (h / 2) < 2) := by omega
      have hinv : idwtImage (dwtImage g w h (L + 1)) w h (L + 1) =
          rowInv (colInv (idwtImage (dwtImage g w h (L + 1)) (w / 2) (h / 2) L)
            (2 * (w / 2)) (2 * (h / 2))) (2 * (w / 2)) (2 * (h / 2)) := by
        conv_lhs => unfold idwtImage
        rw [if_neg hguard]
      rw [hinv, hfwd, ih, colInv_colFwd _ _ _ (by omega), rowInv_rowFwd _ _ _ (by omega)]

/-- 8×8 block Haar round trip: `idwt8x8 ∘ dwt8x8` is the identity. -/
lemma dwt8x8_roundtrip (g : ℕ → ℕ → ℝ) : idwt8x8 (dwt8x8 g) = g := by
  unfold dwt8x8 idwt8x8
  rw [colInv_colFwd _ _ _ (by norm_num), rowInv_rowFwd _ _ _ (by norm_num),
    colInv_colFwd _ _ _ (by norm_num), rowInv_rowFwd _ _ _ (by norm_num),
    colInv_colFwd _ _ _ (by norm_num), rowInv_rowFwd _ _ _ (by norm_num)]

/-- C4: Haar round-trip — `idwt8x8 (dwt8x8 x)` matches `x` within 1e-9 on
every 8×8 grid (here: exactly), and `idwtImage (dwtImage buf)` matches
`buf` within 1e-9 for every buffer, any `width × height`, and every
`levels ≤ calcDwtLevels width height` (including non-even and
non-power-of-two dimensions, whose trailing odd rows/columns are left
untransformed at each level). -/
theorem c4_haar_roundtrip :
    (∀ (g : ℕ → ℕ → ℝ) (i j : ℕ), i < 8 → j < 8 →
      |idwt8x8 (dwt8x8 g) i j - g i j| ≤ 1e-9) ∧
    (∀ (buf : ℕ → ℕ → ℝ) (W H L : ℕ), L ≤ calcDwtLevels W H →
      ∀ y x : ℕ, y < H → x < W →
        |idwtImage (dwtImage buf W H L) W H L y x - buf y x| ≤ 1e-9) := by
  constructor
  · intro g i j _ _
    rw [dwt8x8_roundtrip, sub_self, abs_zero]
    norm_num
  · intro buf W H L _ y x _ _
    rw [dwtImage_roundtrip, sub_self, abs_zero]
    norm_num

/-- Witness for `c4_haar_roundtrip`: the constant-1 grid at index (0,0),
and the constant-1 one-pixel buffer with 0 levels. -/
theorem c4_haar_roundtrip_witness :
    ((0 : ℕ) < 8 ∧ |idwt8x8 (dwt8x8 (fun _ _ => (1 : ℝ))) 0 0 - 1| ≤ 1e-9) ∧
      (0 ≤ calcDwtLevels 1 1 ∧
        |idwtImage (dwtImage (fun _ _ => (1 : ℝ)) 1 1 0) 1 1 0 0 0 - 1| ≤ 1e-9) :=
  ⟨⟨by norm_num,
      c4_haar_roundtrip.1 (fun _ _ => 1) 0 0 (by norm_num) (by norm_num)⟩,
    ⟨Nat.zero_le _,
      c4_haar_roundtrip.2 (fun _ _ => 1) 1 1 0 (Nat.zero_le _) 0 0
        (by norm_num) (by norm_num)⟩⟩

/-- `std::round`: round to nearest, halfway cases away from zero. -/
noncomputable def stdRound (x : ℝ) : ℝ :=
  if x < 0 then -(((⌊-x + 1 / 2⌋ : ℤ) : ℝ)) else ((⌊x + 1 / 2⌋ : ℤ) : ℝ)

/-- `BASE_LUMA` (`ImageCodec.cpp`): the standard JPEG base luma
quantization table. -/
def BASE_LUMA : Fin 8 → Fin 8 → ℕ :=
  ![![16, 11, 10, 16, 24, 40, 51, 61],
    ![12, 12, 14, 19, 26, 58, 60, 55],
    ![14, 13, 16, 24, 40, 57, 69, 56],
    ![14, 17, 22, 29, 51, 87, 80, 62],
    ![18, 22, 37, 56, 68, 109, 103, 77],
    ![24, 35, 55, 64, 81, 104, 113, 92],
    ![49, 64, 78, 87, 103, 121, 120, 101],
    ![72, 92, 95, 98, 112, 100, 103, 99]]

/-- `BASE_CHROMA` (`ImageCodec.cpp`): the standard JPEG base chroma
quantization table. -/
def BASE_CHROMA : Fin 8 → Fin 8 → ℕ :=
  ![![17, 18, 24, 47, 99, 99, 99, 99],
    ![18, 21, 26, 66, 99, 99, 99, 99],
    ![24, 26, 56, 99, 99, 99, 99, 99],
    ![47, 66, 99, 99, 99, 99, 99, 99],
    ![99, 99, 99, 99, 99, 99, 99, 99],
    ![99, 99, 99, 99, 99, 99, 99, 99],
    ![99, 99, 99, 99, 99, 99, 99, 99],
    ![99, 99, 99, 99, 99, 99, 99, 99]]

/-- The quality-to-scale formula of `generateQuantizationTables` (and of
`processChannelDWT`): `scale = (quality < 50 ? 5000/quality : 200 −
2·quality) / 100`. -/
noncomputable def qualityScale (q : ℝ) : ℝ :=
  (if q < 50 then 5000 / q else 200 - 2 * q) / 100

/-- The luma table produced by `generateQuantizationTables`:
`max(1.0, round(BASE_LUMA[i][j] * scale))`. -/
noncomputable def lumaQuantTableFor (q : ℝ) : Fin 8 → Fin 8 → ℝ :=
  fun i j => max 1 (stdRound ((BASE_LUMA i j : ℝ) * qualityScale q))

/-- The chroma table produced by `generateQuantizationTables`:
`max(1.0, round(BASE_CHROMA[i][j] * scale))`. -/
noncomputable def chromaQuantTableFor (q : ℝ) : Fin 8 → Fin 8 → ℝ :=
  fun i j => max 1 (stdRound ((BASE_CHROMA i j : ℝ) * qualityScale q))

/-- `ImageCodec::ChromaSubsampling`. -/
inductive ChromaSubsampling
  | CS_444
  | CS_422
  | CS_420
deriving DecidableEq

/-- `ImageCodec::TransformType`. -/
inductive TransformType
  | DCT
  | DWT
deriving DecidableEq

/-- The state of an `ImageCodec` instance after construction. -/
structure ImageCodec where
  quality : ℝ
  enableQuantization : Bool
  chromaSubsampling : ChromaSubsampling
  transformType : TransformType
  lumaQuantTable : Fin 8 → Fin 8 → ℝ
  chromaQuantTable : Fin 8 → Fin 8 → ℝ

/-- The `ImageCodec` constructor: `generateQuantizationTables()` is
called only when `m_enableQuantization` is set.  Otherwise the two
member `double[8][8]` arrays are never written and hold indeterminate
values; `initLuma` / `initChroma` model that indeterminate initial
content. -/
noncomputable def mkImageCodec (quality : ℝ) (enableQuantization : Bool)
    (cs : ChromaSubsampling) (transform : TransformType)
    (initLuma initChroma : Fin 8 → Fin 8 → ℝ) : ImageCodec :=
  { quality := quality
    enableQuantization := enableQuantization
    chromaSubsampling := cs
    transformType := transform
    lumaQuantTable :=
      if enableQuantization then lumaQuantTableFor quality else initLuma
    chromaQuantTable :=
      if enableQuantization then chromaQuantTableFor quality else initChroma }

/-- C6: each generated quantization-table entry equals
`max(1.0, round(baseEntry·scale))` with
`scale = (quality<50 ? 5000/quality : 200−2·quality)/100`, for both the
luma and chroma tables, and hence every entry is ≥ 1. -/
theorem c6_quant_table_formula_and_floor (q : ℝ) (h1 : 1 ≤ q)
    (h100 : q ≤ 100) (i j : Fin 8) :
    lumaQuantTableFor q i j =
      max 1 (stdRound ((BASE_LUMA i j : ℝ) *
        ((if q < 50 then 5000 / q else 200 - 2 * q) / 100))) ∧
    chromaQuantTableFor q i j =
      max 1 (stdRound ((BASE_CHROMA i j : ℝ) *
        ((if q < 50 then 5000 / q else 200 - 2 * q) / 100))) ∧
    1 ≤ lumaQuantTableFor q i j ∧ 1 ≤ chromaQuantTableFor q i j :=
  ⟨rfl, rfl, le_max_left _ _, le_max_left _ _⟩

/-- Witness for `c6_quant_table_formula_and_floor` at quality 80,
entry (0,0). -/
theorem c6_quant_table_formula_and_floor_witness :
    (1 : ℝ) ≤ 80 ∧ (80 : ℝ) ≤ 100 ∧
      1 ≤ lumaQuantTableFor 80 0 0 ∧ 1 ≤ chromaQuantTableFor 80 0 0 :=
  ⟨by norm_num, by norm_num,
    (c6_quant_table_formula_and_floor 80 (by norm_num) (by norm_num) 0 0).2.2⟩

lemma qualityScale_nonneg (q : ℝ) (h1 : 1 ≤ q) (h100 : q ≤ 100) :
    0 ≤ qualityScale q := by
  unfold qualityScale
  rcases lt_or_le q 50 with hq | hq
  · rw [if_pos hq]
    have : (0 : ℝ) ≤ 5000 / q := by positivity
    linarith
  · rw [if_neg (not_lt.mpr hq)]
    linarith

lemma qualityScale_antitone {q1 q2 : ℝ} (h1 : 1 ≤ q1) (h12 : q1 ≤ q2)
    (h100 : q2 ≤ 100) : qualityScale q2 ≤ qualityScale q1 := by
  unfold qualityScale
  rcases lt_or_le q1 50 with ha | ha
  · rw [if_pos ha]
    rcases lt_or_le q2 50 with hb | hb
    · rw [if_pos hb]
      have h0 : (0 : ℝ) < q1 := by linarith
      have : 5000 / q2 ≤ 5000 / q1 := by gcongr
      linarith
    · rw [if_neg (not_lt.mpr hb)]
      have hA : (100 : ℝ) < 5000 / q1 := by
        rw [lt_div_iff (by linarith)]
        nlinarith
      linarith
  · rw [if_neg (not_lt.mpr ha), if_neg (not_lt.mpr (by linarith))]
    linarith

lemma stdRound_mono_nonneg {a b : ℝ} (ha : 0 ≤ a) (hab : a ≤ b) :
    stdRound a ≤ stdRound b := by
  unfold stdRound
  rw [if_neg (not_lt.mpr ha), if_neg (not_lt.mpr (le_trans ha hab))]
  exact_mod_cast Int.floor_le_floor (by linarith)

/-- C7: quality monotonicity of the quantization tables — for qualities
`q1 ≤ q2` in [1,100], the sum of all 64 entries of the table generated
for `q2` is ≤ the sum for `q1`, for both luma and chroma. -/
theorem c7_quality_monotonicity (q1 q2 : ℝ) (h1 : 1 ≤ q1) (h12 : q1 ≤ q2)
    (h100 : q2 ≤ 100) :
    (∑ i : Fin 8, ∑ j : Fin 8, lumaQuantTableFor q2 i j) ≤
      (∑ i : Fin 8, ∑ j : Fin 8, lumaQuantTableFor q1 i j) ∧
    (∑ i : Fin 8, ∑ j : Fin 8, chromaQuantTableFor q2 i j) ≤
      (∑ i : Fin 8, ∑ j : Fin 8, chromaQuantTableFor q1 i j) := by
  have hs := qualityScale_antitone h1 h12 h100
  have hs2 := qualityScale_nonneg q2 (le_trans h1 h12) h100
  constructor
  · refine Finset.sum_le_sum fun i _ => Finset.sum_le_sum fun j _ => ?_
    unfold lumaQuantTableFor
    refine max_le_max (le_refl 1) ?_
    refine stdRound_mono_nonneg (mul_nonneg (Nat.cast_nonneg _) hs2) ?_
    exact mul_le_mul_of_nonneg_left hs (Nat.cast_nonneg _)
  · refine Finset.sum_le_sum fun i _ => Finset.sum_le_sum fun j _ => ?_
    unfold chromaQuantTableFor
    refine max_le_max (le_refl 1) ?_
    refine stdRound_mono_nonneg (mul_nonneg (Nat.cast_nonneg _) hs2) ?_
    exact mul_le_mul_of_nonneg_left hs (Nat.cast_nonneg _)

/-- Witness for `c7_quality_monotonicity` at q1 = 30, q2 = 80. -/
theorem c7_quality_monotonicity_witness :
    (1 : ℝ) ≤ 30 ∧ (30 : ℝ) ≤ 80 ∧ (80 : ℝ) ≤ 100 ∧
      (∑ i : Fin 8, ∑ j : Fin 8, lumaQuantTableFor 80 i j) ≤
        (∑ i : Fin 8, ∑ j : Fin 8, lumaQuantTableFor 30 i j) :=
  ⟨by norm_num, by norm_num, by norm_num,
    (c7_quality_monotonicity 30 80 (by norm_num) (by norm_num)
      (by norm_num)).1⟩

/-- C2 counterexample: a codec constructed at quality 50 with
quantization disabled does not hold quality-derived tables — the
constructor's `if (m_enableQuantization)` guard skips
`generateQuantizationTables()`, leaving the member arrays with their
indeterminate initial contents (here modeled as all-zero), whereas the
quality-50 luma table has entry (0,0) = 16. -/
theorem c2_tables_not_generated_counterexample :
    (mkImageCodec 50 false ChromaSubsampling.CS_444 TransformType.DCT
        (fun _ _ => 0) (fun _ _ => 0)).lumaQuantTable 0 0 ≠
      lumaQuantTableFor 50 0 0 := by
  have hL : (mkImageCodec 50 false ChromaSubsampling.CS_444 TransformType.DCT
      (fun _ _ => 0) (fun _ _ => 0)).lumaQuantTable 0 0 = 0 := by
    simp [mkImageCodec]
  rw [hL]
  have hscale : qualityScale 50 = 1 := by
    unfold qualityScale
    rw [if_neg (by norm_num)]
    norm_num
  have hbase : (BASE_LUMA 0 0 : ℝ) = 16 := by norm_num [BASE_LUMA]
  have h16 : lumaQuantTableFor 50 0 0 = 16 := by
    unfold lumaQuantTableFor
    rw [hscale, hbase, mul_one]
    unfold stdRound
    rw [if_neg (by norm_num)]
    have hfl : ⌊(16 : ℝ) + 1 / 2⌋ = 16 := by
      rw [Int.floor_eq_iff]
      constructor <;> norm_num
    rw [hfl]
    norm_num
  rw [h16]
  norm_num

/-- C2 amended: whenever quantization is enabled, the constructor derives
both quantization tables from the quality factor (so every later reader
of `lumaQuantTable` / `chromaQuantTable` — `processChannel`,
`inspectBlock` — sees quality-derived tables); with quantization
disabled the tables are simply the indeterminate initial array
contents. -/
theorem c2_tables_generated_once_when_enabled (q : ℝ)
    (cs : ChromaSubsampling) (tt : TransformType)
    (initLuma initChroma : Fin 8 → Fin 8 → ℝ) :
    (mkImageCodec q true cs tt initLuma initChroma).lumaQuantTable =
        lumaQuantTableFor q ∧
      (mkImageCodec q true cs tt initLuma initChroma).chromaQuantTable =
        chromaQuantTableFor q := by
  constructor <;> simp [mkImageCodec]

/-- The mean-squared error accumulated by `CodecAnalysis::computePSNR`:
sum of squared sample differences over `I1.size()`, divided by the total
size. -/
noncomputable def mseOf (I1 I2 : Image) : ℝ :=
  (∑ i ∈ Finset.range I1.size,
    (I1.data i - I2.data i) * (I1.data i - I2.data i)) / (I1.size : ℝ)

/-- `CodecAnalysis::computePSNR` (`CodecAnalysis.cpp`): 0.0 on shape
mismatch; 100.0 when `mse ≤ 1e-10`; otherwise `10·log10(255²/mse)`
(`log10` is modeled by `Real.logb 10`). -/
noncomputable def computePSNR (I1 I2 : Image) : ℝ :=
  if I1.width ≠ I2.width ∨ I1.height ≠ I2.height ∨ I1.channels ≠ I2.channels
  then 0
  else if mseOf I1 I2 ≤ 1e-10 then 100
  else 10 * Real.logb 10 ((255 * 255) / mseOf I1 I2)

/-- `CodecAnalysis::computeArtifactMap` (`CodecAnalysis.cpp`):
`throw std::invalid_argument("Image size mismatch")` on shape mismatch
(modeled as `Except.error`), otherwise the per-sample map
`min(255, |a − b|·gain)`. -/
noncomputable def computeArtifactMap (original reconstructed : Image)
    (gain : ℝ) : Except String Image :=
  if original.width ≠ reconstructed.width ∨
      original.height ≠ reconstructed.height ∨
      original.channels ≠ reconstructed.channels then
    Except.error "Image size mismatch"
  else
    Except.ok
      { width := original.width, height := original.height,
        channels := original.channels,
        data := fun i =>
          if i < original.size then
            min 255 (|original.data i - reconstructed.data i| * gain)
          else 0 }

/-- The clipped square window a sample position contributes to in the
SSIM helpers (`for j,i in [-half, half]` with bounds checks). -/
def windowPoints (w h : ℕ) (x y half : ℤ) : Finset (ℤ × ℤ) :=
  (Finset.Icc (-half) half ×ˢ Finset.Icc (-half) half).filter
    (fun p => 0 ≤ x + p.1 ∧ x + p.1 < (w : ℤ) ∧
      0 ≤ y + p.2 ∧ y + p.2 < (h : ℤ))

/-- `getMean` (`CodecAnalysis.cpp`): mean of the in-bounds window
samples, 0 if the window is empty. -/
noncomputable def getMean (d : ℕ → ℝ) (w h : ℕ) (x y : ℤ)
    (kernelSize : ℕ) : ℝ :=
  let pts := windowPoints w h x y (kernelSize / 2 : ℕ)
  if 0 < pts.card then
    (∑ p ∈ pts, d ((y + p.2).toNat * w + (x + p.1).toNat)) / pts.card
  else 0

/-- `getVariance` (`CodecAnalysis.cpp`). -/
noncomputable def getVariance (d : ℕ → ℝ) (w h : ℕ) (x y : ℤ)
    (kernelSize : ℕ) (mean : ℝ) : ℝ :=
  let pts := windowPoints w h x y (kernelSize / 2 : ℕ)
  if 0 < pts.card then
    (∑ p ∈ pts,
      (d ((y + p.2).toNat * w + (x + p.1).toNat) - mean) *
        (d ((y + p.2).toNat * w + (x + p.1).toNat) - mean)) / pts.card
  else 0

/-- `getCovariance` (`CodecAnalysis.cpp`). -/
noncomputable def getCovariance (d1 d2 : ℕ → ℝ) (w h : ℕ) (x y : ℤ)
    (kernelSize : ℕ) (mean1 mean2 : ℝ) : ℝ :=
  let pts := windowPoints w h x y (kernelSize / 2 : ℕ)
  if 0 < pts.card then
    (∑ p ∈ pts,
      (d1 ((y + p.2).toNat * w + (x + p.1).toNat) - mean1) *
        (d2 ((y + p.2).toNat * w + (x + p.1).toNat) - mean2)) / pts.card
  else 0

/-- One sampled window's SSIM index inside `computeSSIM`'s double loop,
with the standard 8-bit constants C1 = 6.5025, C2 = 58.5225 and the
8×8 uniform (non-Gaussian) kernel. -/
noncomputable def ssimWindow (d1 d2 : ℕ → ℝ) (w h : ℕ) (x y : ℤ) : ℝ :=
  let ux := getMean d1 w h x y 8
  let uy := getMean d2 w h x y 8
  let sigx2 := getVariance d1 w h x y 8 ux
  let sigy2 := getVariance d2 w h x y 8 uy
  let sigxy := getCovariance d1 d2 w h x y 8 ux uy
  ((2 * ux * uy + 6.5025) * (2 * sigxy + 58.5225)) /
    ((ux * ux + uy * uy + 6.5025) * (sigx2 + sigy2 + 58.5225))

/-- `CodecAnalysis::computeSSIM` (`CodecAnalysis.cpp`): 0.0 on shape
mismatch; otherwise the mean of the per-window index over the stride-4
sampled window origins. -/
noncomputable def computeSSIM (I1 I2 : Image) : ℝ :=
  if I1.width ≠ I2.width ∨ I1.height ≠ I2.height ∨ I1.channels ≠ I2.channels
  then 0
  else
    let blocks := ((I1.height + 3) / 4) * ((I1.width + 3) / 4)
    let mssim :=
      ∑ t ∈ Finset.range ((I1.height + 3) / 4),
        ∑ s ∈ Finset.range ((I1.width + 3) / 4),
          ssimWindow I1.data I2.data I1.width I1.height
            ((4 * s : ℕ) : ℤ) ((4 * t : ℕ) : ℤ)
    if 0 < blocks then mssim / blocks else 0

/-- A 1×1 single-channel all-zero image (for mismatch counterexamples). -/
noncomputable def c1ImgA : Image :=
  { width := 1, height := 1, channels := 1, data := fun _ => 0 }

/-- A 2×1 single-channel all-zero image (shape differs from `c1ImgA`). -/
noncomputable def c1ImgB : Image :=
  { width := 2, height := 1, channels := 1, data := fun _ => 0 }

/-- C1 counterexample: on a width mismatch `computeArtifactMap` does not
return a sentinel zero image — it throws (`std::invalid_argument("Image
size mismatch")`, modeled as `Except.error`). -/
theorem c1_artifact_map_throws_counterexample :
    computeArtifactMap c1ImgA c1ImgB 5 = Except.error "Image size mismatch" := by
  unfold computeArtifactMap
  rw [if_pos (Or.inl (by norm_num [c1ImgA, c1ImgB]))]

/-- C1 amended: on any dimension/channel mismatch, `computePSNR` and
`computeSSIM` return the sentinel 0.0, but `computeArtifactMap` throws
`std::invalid_argument` instead of returning a zero result. -/
theorem c1_mismatch_behavior (a b : Image) (gain : ℝ)
    (hmis : a.width ≠ b.width ∨ a.height ≠ b.height ∨ a.channels ≠ b.channels) :
    computePSNR a b = 0 ∧ computeSSIM a b = 0 ∧
      computeArtifactMap a b gain = Except.error "Image size mismatch" := by
  refine ⟨?_, ?_, ?_⟩
  · unfold computePSNR
    rw [if_pos hmis]
  · unfold computeSSIM
    rw [if_pos hmis]
  · unfold computeArtifactMap
    rw [if_pos hmis]

/-- Witness for `c1_mismatch_behavior` on the concrete mismatched pair. -/
theorem c1_mismatch_behavior_witness :
    (c1ImgA.width ≠ c1ImgB.width ∨ c1ImgA.height ≠ c1ImgB.height ∨
        c1ImgA.channels ≠ c1ImgB.channels) ∧
      computePSNR c1ImgA c1ImgB = 0 ∧ computeSSIM c1ImgA c1ImgB = 0 :=
  ⟨Or.inl (by norm_num [c1ImgA, c1ImgB]),
    ((c1_mismatch_behavior c1ImgA c1ImgB 5
      (Or.inl (by norm_num [c1ImgA, c1ImgB]))).1),
    ((c1_mismatch_behavior c1ImgA c1ImgB 5
      (Or.inl (by norm_num [c1ImgA, c1ImgB]))).2.1)⟩

/-- C8: on equal-shaped images `computePSNR` returns exactly 100.0 when
the MSE is ≤ 1e-10, otherwise `10·log10(255²/MSE)`; in particular
`computePSNR(x,x) = 100 ≥ 99` for every valid image, with no division or
log-of-zero fault (the MSE ≤ 1e-10 branch short-circuits them). -/
theorem c8_psnr_formula_and_identity (a b : Image)
    (hw : a.width = b.width) (hh : a.height = b.height)
    (hc : a.channels = b.channels)
    (hvalid : 0 < a.width ∧ 0 < a.height ∧ 0 < a.channels) :
    (mseOf a b ≤ 1e-10 → computePSNR a b = 100) ∧
    (¬mseOf a b ≤ 1e-10 →
      computePSNR a b = 10 * Real.logb 10 ((255 * 255) / mseOf a b)) ∧
    computePSNR a a = 100 ∧ 99 ≤ computePSNR a a := by
  have hnomis : ¬(a.width ≠ b.width ∨ a.height ≠ b.height ∨
      a.channels ≠ b.channels) := by
    push_neg
    exact ⟨hw, hh, hc⟩
  have hself : ¬(a.width ≠ a.width ∨ a.height ≠ a.height ∨
      a.channels ≠ a.channels) := by
    push_neg
    exact ⟨rfl, rfl, rfl⟩
  have hmse : mseOf a a = 0 := by
    unfold mseOf
    simp
  have hid : computePSNR a a = 100 := by
    unfold computePSNR
    rw [if_neg hself, if_pos (by rw [hmse]; norm_num)]
  refine ⟨?_, ?_, hid, ?_⟩
  · intro hm
    unfold computePSNR
    rw [if_neg hnomis, if_pos hm]
  · intro hm
    unfold computePSNR
    rw [if_neg hnomis, if_neg hm]
  · rw [hid]
    norm_num

/-- Witness for `c8_psnr_formula_and_identity` on the 1×1 zero image. -/
theorem c8_psnr_formula_and_identity_witness :
    c1ImgA.width = c1ImgA.width ∧ 0 < c1ImgA.width ∧
      computePSNR c1ImgA c1ImgA = 100 :=
  ⟨rfl, by norm_num [c1ImgA],
    (c8_psnr_formula_and_identity c1ImgA c1ImgA rfl rfl rfl
      ⟨by norm_num [c1ImgA], by norm_num [c1ImgA], by norm_num [c1ImgA]⟩).2.2.1⟩

/-- `ImageCodec::processChannel` (`ImageCodec.cpp`): block-DCT pipeline.
The imperative loop visits each 8×8 block origin once and writes its
pixels exactly once, so it is rendered per output pixel: the pixel's
block origin is `(8·(x/8), 8·(y/8))`; boundary blocks narrower or
shorter than 8 are copied unchanged; full blocks are level-shifted,
DCT-transformed, (de)quantized when enabled, and inverse-transformed. -/
noncomputable def processChannel (enableQuantization : Bool)
    (quantTable : Fin 8 → Fin 8 → ℝ) (channel : Image) : Image :=
  { width := channel.width, height := channel.height, channels := 1,
    data := fun idx =>
      if idx < channel.width * channel.height then
        let W := channel.width
        let y := idx / W
        let x := idx % W
        let x0 := 8 * (x / 8)
        let y0 := 8 * (y / 8)
        if min 8 (W - x0) < 8 ∨ min 8 (channel.height - y0) < 8 then
          channel.data idx
        else
          let block : Fin 8 → Fin 8 → ℝ := fun i j =>
            channel.data ((y0 + (i : ℕ)) * W + (x0 + (j : ℕ))) - 128
          let dctBlock := dct8x8 block
          let quantized : Fin 8 → Fin 8 → ℝ :=
            if enableQuantization then
              fun i j =>
                stdRound (dctBlock i j / quantTable i j) * quantTable i j
            else dctBlock
          idct8x8 quantized ⟨y % 8, Nat.mod_lt _ (by norm_num)⟩
            ⟨x % 8, Nat.mod_lt _ (by norm_num)⟩ + 128
      else 0 }

/-- The dimension a quadrant has on entering forward level `l`
(the `fw = fwdW[lev] / 2` replay loop of `dwtQuantStep`/`idwtImage`). -/
def levelEnterDim (d : ℕ) : ℕ → ℕ
  | 0 => d
  | l + 1 => levelEnterDim d l / 2

/-- The `for (lev = levels-1; lev >= 0; --lev)` scan of `dwtQuantStep`:
`go (l+1)` inspects forward level `l`, `go 0` is the fall-through LL
step `max(1, baseStep / 2^levels)`. -/
noncomputable def dwtQuantStepScan (x y W H levels : ℕ) (baseStep : ℝ) :
    ℕ → ℝ
  | 0 => max 1 (baseStep / ((2 : ℝ) ^ levels))
  | l + 1 =>
    let tw := 2 * (levelEnterDim W l / 2)
    let th := 2 * (levelEnterDim H l / 2)
    if (x < tw ∧ y < th) ∧ ¬(x < tw / 2 ∧ y < th / 2) then
      max 1 (baseStep / ((2 : ℝ) ^ l))
    else dwtQuantStepScan x y W H levels baseStep l

/-- `dwtQuantStep` (`wavelet.cpp`): the subband-adaptive quantization
step at coefficient (x,y). -/
noncomputable def dwtQuantStep (x y W H levels : ℕ) (baseStep : ℝ) : ℝ :=
  dwtQuantStepScan x y W H levels baseStep levels

/-- `ImageCodec::processChannelDWT` (`ImageCodec.cpp`): pad to a
multiple of `2^levels` with edge mirroring and DC shift, forward
full-image DWT, per-coefficient subband quantization when enabled,
inverse DWT, then crop back with level shift and clamping.
(`(W + stride−1) & ~(stride−1)` is rounding up to a multiple of the
power-of-two `stride`, i.e. `((W + stride − 1) / stride) * stride`.) -/
noncomputable def processChannelDWT (quality : ℝ)
    (enableQuantization : Bool) (channel : Image) : Image :=
  let W0 := channel.width
  let H0 := channel.height
  let levels := calcDwtLevels W0 H0
  let stride := 2 ^ levels
  let W := ((W0 + stride - 1) / stride) * stride
  let H := ((H0 + stride - 1) / stride) * stride
  let baseStep := 32 * qualityScale quality
  let buf : ℕ → ℕ → ℝ := fun y x =>
    if y < H ∧ x < W then
      channel.data (min y (H0 - 1) * W0 + min x (W0 - 1)) - 128
    else 0
  let fwd := dwtImage buf W H levels
  let quantized : ℕ → ℕ → ℝ :=
    if enableQuantization then
      fun y x =>
        stdRound (fwd y x / dwtQuantStep x y W H levels baseStep) *
          dwtQuantStep x y W H levels baseStep
    else fwd
  let recon := idwtImage quantized W H levels
  { width := W0, height := H0, channels := 1,
    data := fun idx =>
      if idx < W0 * H0 then
        max 0 (min 255 (recon (idx / W0) (idx % W0) + 128))
      else 0 }

/-- `ImageCodec::downsampleChannel` (`ImageCodec.cpp`): identity for
4:4:4; otherwise block-average over a 2×1 (4:2:2) or 2×2 (4:2:0)
neighborhood with ceiling-divided output dimensions (in the non-4:4:4
branch the source's `cs == CS_444 ? 1 : 2` factors are 2). -/
noncomputable def downsampleChannel (channel : Image)
    (cs : ChromaSubsampling) : Image :=
  if cs = ChromaSubsampling.CS_444 then channel
  else
    let oW := channel.width
    let oH := channel.height
    let nW := (oW + 1) / 2
    let nH := if cs = ChromaSubsampling.CS_420 then (oH + 1) / 2 else oH
    { width := nW, height := nH, channels := 1,
      data := fun idx =>
        if idx < nW * nH then
          let y := idx / nW
          let x := idx % nW
          let startX := x * 2
          let startY := y * (if cs = ChromaSubsampling.CS_420 then 2 else 1)
          let endX := startX + 2
          let endY :=
            startY + (if cs = ChromaSubsampling.CS_420 then 2 else 1)
          let pts :=
            Finset.Ico startY (min endY oH) ×ˢ Finset.Ico startX (min endX oW)
          if 0 < pts.card then
            (∑ p ∈ pts, channel.data (p.1 * oW + p.2)) / (pts.card : ℝ)
          else channel.data (min startY (oH - 1) * oW + min startX (oW - 1))
        else 0 }

/-- `ImageCodec::upsampleChannel` (`ImageCodec.cpp`): identity for
4:4:4; otherwise nearest-neighbor expansion (`srcX = x/2`, and
`srcY = y/2` for 4:2:0), clamped to valid source coordinates. -/
noncomputable def upsampleChannel (channel : Image)
    (targetWidth targetHeight : ℕ) (cs : ChromaSubsampling) : Image :=
  if cs = ChromaSubsampling.CS_444 then channel
  else
    { width := targetWidth, height := targetHeight, channels := 1,
      data := fun idx =>
        if idx < targetWidth * targetHeight then
          let y := idx / targetWidth
          let x := idx % targetWidth
          let srcX := min (x / 2) (channel.width - 1)
          let srcY :=
            min (if cs = ChromaSubsampling.CS_420 then y / 2 else y)
              (channel.height - 1)
          channel.data (srcY * channel.width + srcX)
        else 0 }

/-- The per-call-site `(m_transformType == DWT) ? processChannelDWT :
processChannel` dispatch used throughout `ImageCodec::process`. -/
noncomputable def processOneChannel (codec : ImageCodec)
    (table : Fin 8 → Fin 8 → ℝ) (ch : Image) : Image :=
  if codec.transformType = TransformType.DWT then
    processChannelDWT codec.quality codec.enableQuantization ch
  else processChannel codec.enableQuantization table ch

/-- `ImageCodec::process` (`ImageCodec.cpp`): BGR → YCrCb, split planes,
process Y at full resolution, process Cr/Cb (downsampled and upsampled
back unless 4:4:4), merge, and convert back to BGR. -/
noncomputable def process (codec : ImageCodec) (bgrImage : Image) : Image :=
  let W := bgrImage.width
  let H := bgrImage.height
  let ycrcb := bgrToYCrCb bgrImage
  let Yorig : Image :=
    { width := W, height := H, channels := 1,
      data := fun i => if i < W * H then ycrcb.data (3 * i) else 0 }
  let CrOrig : Image :=
    { width := W, height := H, channels := 1,
      data := fun i => if i < W * H then ycrcb.data (3 * i + 1) else 0 }
  let CbOrig : Image :=
    { width := W, height := H, channels := 1,
      data := fun i => if i < W * H then ycrcb.data (3 * i + 2) else 0 }
  let reconY := processOneChannel codec codec.lumaQuantTable Yorig
  let reconCr :=
    if codec.chromaSubsampling = ChromaSubsampling.CS_444 then
      processOneChannel codec codec.chromaQuantTable CrOrig
    else
      upsampleChannel
        (processOneChannel codec codec.chromaQuantTable
          (downsampleChannel CrOrig codec.chromaSubsampling))
        W H codec.chromaSubsampling
  let reconCb :=
    if codec.chromaSubsampling = ChromaSubsampling.CS_444 then
      processOneChannel codec codec.chromaQuantTable CbOrig
    else
      upsampleChannel
        (processOneChannel codec codec.chromaQuantTable
          (downsampleChannel CbOrig codec.chromaSubsampling))
        W H codec.chromaSubsampling
  let merged : Image :=
    { width := W, height := H, channels := 3,
      data := fun idx =>
        if idx < W * H * 3 then
          let p := idx / 3
          if idx % 3 = 0 then reconY.data p
          else if idx % 3 = 1 then reconCr.data p
          else reconCb.data p
        else 0 }
  ycrcbToBgr merged

/-- `ImageCodec::BlockDebugData`: five 8×8 grids. -/
structure BlockDebugData where
  original : Fin 8 → Fin 8 → ℝ
  coefficients : Fin 8 → Fin 8 → ℝ
  quantTable : Fin 8 → Fin 8 → ℝ
  quantized : Fin 8 → Fin 8 → ℝ
  reconstructed : Fin 8 → Fin 8 → ℝ

/-- `BlockDebugData empty = {}` — the value-initialized (all-zero)
debug bundle. -/
noncomputable def zeroBlockDebugData : BlockDebugData :=
  { original := fun _ _ => 0, coefficients := fun _ _ => 0,
    quantTable := fun _ _ => 0, quantized := fun _ _ => 0,
    reconstructed := fun _ _ => 0 }

/-- `dwt8x8` restricted to an 8×8 grid of `Fin`-indexed samples
(out-of-range reads never occur for indices < 8). -/
noncomputable def dwt8x8Block (src : Fin 8 → Fin 8 → ℝ) :
    Fin 8 → Fin 8 → ℝ :=
  fun i j =>
    dwt8x8 (fun a b =>
      if h : a < 8 ∧ b < 8 then src ⟨a, h.1⟩ ⟨b, h.2⟩ else 0) i j

/-- `idwt8x8` restricted to an 8×8 grid of `Fin`-indexed samples. -/
noncomputable def idwt8x8Block (src : Fin 8 → Fin 8 → ℝ) :
    Fin 8 → Fin 8 → ℝ :=
  fun i j =>
    idwt8x8 (fun a b =>
      if h : a < 8 ∧ b < 8 then src ⟨a, h.1⟩ ⟨b, h.2⟩ else 0) i j

/-- `ImageCodec::inspectBlock` (`ImageCodec.cpp`): for the full-image
DWT transform kind it returns the zeroed bundle immediately; otherwise
it snapshots the quantization table, the (zero-padded) original block,
the forward coefficients, the quantized indices, and the
reconstruction. -/
noncomputable def inspectBlock (codec : ImageCodec) (channel : Image)
    (blockX blockY : ℕ) (isChroma : Bool) : BlockDebugData :=
  if codec.transformType = TransformType.DWT then zeroBlockDebugData
  else
    let quantTable :=
      if isChroma then codec.chromaQuantTable else codec.lumaQuantTable
    let startX := blockX * 8
    let startY := blockY * 8
    let original : Fin 8 → Fin 8 → ℝ := fun i j =>
      if startX + (j : ℕ) < channel.width ∧
          startY + (i : ℕ) < channel.height then
        channel.data ((startY + (i : ℕ)) * channel.width + (startX + (j : ℕ)))
      else 0
    let centered : Fin 8 → Fin 8 → ℝ := fun i j => original i j - 128
    let coefficients :=
      if codec.transformType = TransformType.DWT then dwt8x8Block centered
      else dct8x8 centered
    let quantized : Fin 8 → Fin 8 → ℝ :=
      if codec.enableQuantization then
        fun i j => stdRound (coefficients i j / quantTable i j)
      else coefficients
    let dequantized : Fin 8 → Fin 8 → ℝ :=
      if codec.enableQuantization then
        fun i j => quantized i j * quantTable i j
      else quantized
    let reconBlock :=
      if codec.transformType = TransformType.DWT then idwt8x8Block dequantized
      else idct8x8 dequantized
    { original := original, coefficients := coefficients,
      quantTable := quantTable, quantized := quantized,
      reconstructed := fun i j => reconBlock i j + 128 }

/-- C10: with the full-image wavelet transform kind configured,
`inspectBlock` returns a `BlockDebugData` whose five 8×8 grids are all
zero, for every channel, block coordinate and chroma flag. -/
theorem c10_inspect_block_dwt_returns_zeros (codec : ImageCodec)
    (channel : Image) (blockX blockY : ℕ) (isChroma : Bool)
    (hdwt : codec.transformType = TransformType.DWT) (i j : Fin 8) :
    (inspectBlock codec channel blockX blockY isChroma).original i j = 0 ∧
    (inspectBlock codec channel blockX blockY isChroma).coefficients i j = 0 ∧
    (inspectBlock codec channel blockX blockY isChroma).quantTable i j = 0 ∧
    (inspectBlock codec channel blockX blockY isChroma).quantized i j = 0 ∧
    (inspectBlock codec channel blockX blockY isChroma).reconstructed i j = 0 := by
  have h : inspectBlock codec channel blockX blockY isChroma =
      zeroBlockDebugData := by
    unfold inspectBlock
    rw [if_pos hdwt]
  rw [h]
  exact ⟨rfl, rfl, rfl, rfl, rfl⟩

/-- Witness for `c10_inspect_block_dwt_returns_zeros`: a concrete
DWT-configured codec, the 1×1 zero plane, block (0,0). -/
theorem c10_inspect_block_dwt_returns_zeros_witness :
    (mkImageCodec 50 true ChromaSubsampling.CS_444 TransformType.DWT
          (fun _ _ => 0) (fun _ _ => 0)).transformType = TransformType.DWT ∧
      (inspectBlock
        (mkImageCodec 50 true ChromaSubsampling.CS_444 TransformType.DWT
          (fun _ _ => 0) (fun _ _ => 0))
        c1ImgA 0 0 false).original 0 0 = 0 :=
  ⟨rfl,
    (c10_inspect_block_dwt_returns_zeros
      (mkImageCodec 50 true ChromaSubsampling.CS_444 TransformType.DWT
        (fun _ _ => 0) (fun _ _ => 0))
      c1ImgA 0 0 false rfl 0 0).1⟩

/-- C5: `process` preserves width, height and channel count for every
3-channel input (whatever the configuration, hence for multiple-of-8
and non-multiple-of-8 dimensions alike); and in the block-DCT path, a
pixel lying in a boundary block narrower or shorter than 8 samples is
copied unchanged into the reconstructed plane. -/
theorem c5_shape_preserved_and_boundary_copied :
    (∀ (codec : ImageCodec) (img : Image), img.channels = 3 →
      (process codec img).width = img.width ∧
      (process codec img).height = img.height ∧
      (process codec img).channels = img.channels) ∧
    (∀ (enableQ : Bool) (qt : Fin 8 → Fin 8 → ℝ) (ch : Image) (x y : ℕ),
      x < ch.width → y < ch.height →
      (min 8 (ch.width - 8 * (x / 8)) < 8 ∨
        min 8 (ch.height - 8 * (y / 8)) < 8) →
      (processChannel enableQ qt ch).data (y * ch.width + x) =
        ch.data (y * ch.width + x)) := by
  constructor
  · intro codec img hch
    refine ⟨rfl, rfl, ?_⟩
    rw [hch]
    rfl
  · intro enableQ qt ch x y hx hy hb
    have hW : 0 < ch.width := by omega
    have hidx : y * ch.width + x < ch.width * ch.height := by
      calc y * ch.width + x < y * ch.width + ch.width := by omega
        _ = (y + 1) * ch.width := by ring
        _ ≤ ch.height * ch.width := Nat.mul_le_mul_right ch.width (by omega)
        _ = ch.width * ch.height := Nat.mul_comm _ _
    have hcomm : y * ch.width + x = x + y * ch.width := Nat.add_comm _ _
    have hdiv : (y * ch.width + x) / ch.width = y := by
      rw [hcomm, Nat.add_mul_div_right x y hW, Nat.div_eq_of_lt hx]
      omega
    have hmod : (y * ch.width + x) % ch.width = x := by
      rw [hcomm, Nat.add_mul_mod_self_right, Nat.mod_eq_of_lt hx]
    simp only [processChannel]
    rw [if_pos hidx]
    simp only [hdiv, hmod]
    rw [if_pos hb]

/-- Witness for `c5_shape_preserved_and_boundary_copied`: a concrete
codec on the 1×1 tri-channel image, and the boundary pixel (0,0) of a
1×1 plane (its block is 1 sample wide). -/
theorem c5_shape_preserved_and_boundary_copied_witness :
    (c3Img.channels = 3 ∧
      (process
        (mkImageCodec 80 true ChromaSubsampling.CS_444 TransformType.DCT
          (fun _ _ => 0) (fun _ _ => 0)) c3Img).width = c3Img.width) ∧
    ((0 : ℕ) < c1ImgA.width ∧
      (min 8 (c1ImgA.width - 8 * (0 / 8)) < 8 ∨
        min 8 (c1ImgA.height - 8 * (0 / 8)) < 8) ∧
      (processChannel true (fun _ _ => 1) c1ImgA).data
          (0 * c1ImgA.width + 0) =
        c1ImgA.data (0 * c1ImgA.width + 0)) :=
  ⟨⟨rfl,
      (c5_shape_preserved_and_boundary_copied.1
        (mkImageCodec 80 true ChromaSubsampling.CS_444 TransformType.DCT
          (fun _ _ => 0) (fun _ _ => 0)) c3Img rfl).1⟩,
    ⟨by norm_num [c1ImgA],
      Or.inl (by norm_num [c1ImgA]),
      c5_shape_preserved_and_boundary_copied.2 true (fun _ _ => 1) c1ImgA 0 0
        (by norm_num [c1ImgA]) (by norm_num [c1ImgA])
        (Or.inl (by norm_num [c1ImgA]))⟩⟩

end Codec
